import Mathlib

/-!
Verification development for the Silpo product-listing scraper
(`src/config.py`, `src/scraper.py`, `src/parser.py`, `src/main.py`).

The Python source is shallowly embedded: strings become `List Char`,
floats become exact rationals `ℚ`, `None`/falsy-empty values become
`Option`, and the handful of regular expressions used by the parser are
hand-compiled into deterministic scanning functions over character
lists.  Each scanning function carries a comment naming the regex it
models and, where the regex engine's backtracking could matter, a note
arguing why the deterministic scan computes the same match.
-/

/-- Character strings of the embedding: Python `str` as a list of characters. -/
abbrev Str := List Char

/-- Whitespace class of Python `re` `\s` on `str` inputs: ASCII whitespace
`\t \n \v \f \r`, space, the C1/Unicode space characters recognised by
Python's `str.isspace`. -/
def isPySpace (c : Char) : Bool :=
  (0x9 ≤ c.val && c.val ≤ 0xd) || c.val == 0x20 ||
  (0x1c ≤ c.val && c.val ≤ 0x1f) || c.val == 0x85 || c.val == 0xa0 ||
  c.val == 0x1680 || (0x2000 ≤ c.val && c.val ≤ 0x200a) ||
  c.val == 0x2028 || c.val == 0x2029 || c.val == 0x202f ||
  c.val == 0x205f || c.val == 0x3000

/-- Digit class of `re` `\d` (the inputs of this program only ever contain
ASCII digits). -/
def isDigitCh (c : Char) : Bool := '0' ≤ c && c ≤ '9'

/-- Word-character class of `re` `\w` (Unicode), restricted to the scripts
that occur in this program: ASCII alphanumerics, underscore, the Latin-1
letters, and the Cyrillic block U+0400–U+04FF. -/
def isWordCh (c : Char) : Bool :=
  ('a' ≤ c && c ≤ 'z') || ('A' ≤ c && c ≤ 'Z') || isDigitCh c || c == '_' ||
  (0xc0 ≤ c.val && c.val ≤ 0xff && c.val != 0xd7 && c.val != 0xf7) ||
  (0x400 ≤ c.val && c.val ≤ 0x4ff)

/-- Python `str.lower` restricted to the characters this program compares:
ASCII letters, the Cyrillic base block (`А`–`Я` and the Ukrainian/Russian
extras `Ё І Ї Є` in U+0400–U+040F), and `Ґ`. -/
def pyLower (c : Char) : Char :=
  if 'A' ≤ c && c ≤ 'Z' then Char.ofNat (c.toNat + 0x20)
  else if 0x410 ≤ c.val && c.val ≤ 0x42f then Char.ofNat (c.toNat + 0x20)
  else if 0x400 ≤ c.val && c.val ≤ 0x40f then Char.ofNat (c.toNat + 0x50)
  else if c.val == 0x490 then Char.ofNat 0x491
  else c

/-- Lower-case an embedded string, as `title.lower()` does. -/
def lowerStr (s : Str) : Str := s.map pyLower

/-- Substring test: Python's `needle in haystack` on strings. -/
def strContains (haystack needle : Str) : Bool :=
  match haystack with
  | [] => needle == []
  | _ :: tl => needle.isPrefixOf haystack || strContains tl needle

/-- Collapse of whitespace runs: the effect of `re.sub(r'\s+', ' ', s)`.
Every maximal run of `\s` characters is replaced by a single space. -/
def squeeze : Str → Str
  | [] => []
  | [c] => if isPySpace c then [' '] else [c]
  | c :: d :: rest =>
    if isPySpace c then
      if isPySpace d then squeeze (d :: rest) else ' ' :: squeeze (d :: rest)
    else c :: squeeze (d :: rest)

/-- Python `str.strip()`: drop leading and trailing whitespace. -/
def pyStrip (s : Str) : Str :=
  (((s.dropWhile isPySpace).reverse.dropWhile isPySpace)).reverse

/-- Value of a string of ASCII digits, most significant first. -/
def digitsVal (ds : Str) : ℕ := ds.foldl (fun a c => a * 10 + (c.toNat - 48)) 0

/-!
Rational arithmetic of the embedding.  `Rat.add`, `Rat.mul`, `Rat.div`
are `@[irreducible]` in Batteries, which would keep concrete witnesses
from evaluating; the embedding therefore computes through `Rat.divInt`
and the `num`/`den` projections, and the bridge lemmas `qDiv_eq`,
`qMul_eq`, `qOfNat_eq` identify these operations with the ordinary
field operations on `ℚ` for symbolic reasoning.
-/

/-- Division on `ℚ`, computed on numerators and denominators. -/
def qDiv (a b : ℚ) : ℚ := Rat.divInt (a.num * b.den) (a.den * b.num)

/-- Multiplication on `ℚ`, computed on numerators and denominators. -/
def qMul (a b : ℚ) : ℚ := Rat.divInt (a.num * b.num) ((a.den : ℤ) * b.den)

/-- Embedding of a natural number into `ℚ`. -/
def qOfNat (n : ℕ) : ℚ := Rat.divInt n 1

/-- Numeric parsing backing `Parser._to_num`: models Python
`float(str(s).replace(',', '.'))` on the numeral shapes this program's
call sites produce (a run of digits with an optional single decimal
point), computing an exact rational instead of a binary float.  Any
other shape raises `ValueError` in the source, modelled by `none`. -/
def parseNum (s : Str) : Option ℚ :=
  let t := s.map (fun c => if c == ',' then '.' else c)
  let intPart := t.takeWhile isDigitCh
  let rest := t.drop intPart.length
  match rest with
  | [] => if intPart.isEmpty then none else some (qOfNat (digitsVal intPart))
  | '.' :: fr =>
    if fr.all isDigitCh && !(intPart.isEmpty && fr.isEmpty) then
      some (Rat.divInt (digitsVal intPart * 10 ^ fr.length + digitsVal fr) (10 ^ fr.length))
    else none
  | _ => none

/-- Model of `Parser._to_num`: parse, and on failure return `0`. -/
def toNum (s : Str) : ℚ := (parseNum s).getD 0

/-- Python 3 `round` to an integer: round half to even.  The floor is
computed as `q.num.ediv q.den` (Euclidean division by the positive
denominator), and the fractional part `q - ⌊q⌋ = rn / q.den` is compared
with `1/2` by cross-multiplying. -/
def pyRound (q : ℚ) : ℤ :=
  let f := q.num.ediv q.den
  let rn := q.num - f * q.den
  if 2 * rn < q.den then f
  else if (q.den : ℤ) < 2 * rn then f + 1
  else if f % 2 = 0 then f else f + 1

/-- Rounding to two decimals as the source writes it:
`round(x * 100) / 100`. -/
def round2 (x : ℚ) : ℚ := Rat.divInt (pyRound (qMul x 100)) 100

/-!
Hand-compiled matchers for the regular expressions of `src/parser.py`.

General remark used throughout: in all these patterns a greedy digit run
(`\d+`, `\d{2,4}`, …) never needs to backtrack, because every possible
continuation (an optional `[.,]`-fraction, `\s*`, a unit letter, `%`, a
currency marker) starts with a non-digit, while giving back a digit
leaves a digit as the next input character.  Likewise `\s*` never needs
to backtrack because no continuation starts with a whitespace
character.  Each matcher therefore takes the maximal run and fails
deterministically, exactly as the Python engine does.
-/

/-- Matcher for the suffix `\s*(?:грн|₴)` of the price regexes: skips
whitespace and requires a currency marker, returning the number of
characters consumed. -/
def matchCurrencyTail (s : Str) : Option ℕ :=
  let sp := s.takeWhile isPySpace
  let rest := s.drop sp.length
  if "грн".toList.isPrefixOf rest then some (sp.length + 3)
  else
    match rest with
    | '₴' :: _ => some (sp.length + 1)
    | _ => none

/-- Matcher at one position for `\d{1,4}(?:[.,]\d{2})?\s*(?:грн|₴)`, the
price substring stripped from titles in `Parser._extract_title` (line
232).  Returns the number of characters consumed.  A digit run longer
than 4 fails here (and the search moves one character right), and a
fraction whose continuation fails cannot be rescued by dropping the
fraction, since `[.,]` is not whitespace or a currency marker. -/
def matchPriceStripAt (s : Str) : Option ℕ :=
  let ds := s.takeWhile isDigitCh
  if ds.length == 0 || 4 < ds.length then none
  else
    let rest := s.drop ds.length
    match rest with
    | c :: c1 :: c2 :: rest2 =>
      if (c == '.' || c == ',') && isDigitCh c1 && isDigitCh c2 then
        (matchCurrencyTail rest2).map (fun n => ds.length + 3 + n)
      else (matchCurrencyTail rest).map (fun n => ds.length + n)
    | _ => (matchCurrencyTail rest).map (fun n => ds.length + n)

/-- Fuel-driven scanner behind `subPrice`.  The fuel only forces
structural recursion (so that concrete strings evaluate inside the
kernel); `subPrice` supplies the string's length, which is always
enough because every match consumes at least one character. -/
def subPriceGo : ℕ → Str → Str
  | _, [] => []
  | 0, s => s
  | fuel + 1, c :: cs =>
    match matchPriceStripAt (c :: cs) with
    | some n => subPriceGo fuel (cs.drop (n - 1))
    | none => c :: subPriceGo fuel cs

/-- Effect of `re.sub(r'\d{1,4}(?:[.,]\d{2})?\s*(?:грн|₴)', '', s)`:
replace every leftmost non-overlapping match by nothing and continue
scanning after it.  Every match consumes at least one character (its
digit run is non-empty), so dropping `n - 1` characters of the tail
advances exactly past the match. -/
def subPrice (s : Str) : Str := subPriceGo s.length s

/-- Existence of a match of the title price-strip regex anywhere in `s`. -/
def hasPriceMatch : Str → Bool
  | [] => false
  | c :: cs => (matchPriceStripAt (c :: cs)).isSome || hasPriceMatch cs

/-- Matcher at one position for `(\d{2,4}(?:[.,]\d{2})?)\s*(?:грн|₴)`,
the price regex of `Parser._extract_prices` (line 246).  Returns the
captured group together with the number of characters consumed. -/
def matchPrice2At (s : Str) : Option (Str × ℕ) :=
  let ds := s.takeWhile isDigitCh
  if ds.length < 2 || 4 < ds.length then none
  else
    let rest := s.drop ds.length
    match rest with
    | c :: c1 :: c2 :: rest2 =>
      if (c == '.' || c == ',') && isDigitCh c1 && isDigitCh c2 then
        (matchCurrencyTail rest2).map (fun n => (ds ++ [c, c1, c2], ds.length + 3 + n))
      else (matchCurrencyTail rest).map (fun n => (ds, ds.length + n))
    | _ => (matchCurrencyTail rest).map (fun n => (ds, ds.length + n))

/-- Fuel-driven scanner behind `findPriceGroups`; as with `subPriceGo`,
the fuel only forces structural recursion and the string's length is
always enough fuel. -/
def findPriceGroupsGo : ℕ → Str → List Str
  | _, [] => []
  | 0, _ => []
  | fuel + 1, c :: cs =>
    match matchPrice2At (c :: cs) with
    | some (g, n) => g :: findPriceGroupsGo fuel (cs.drop (n - 1))
    | none => findPriceGroupsGo fuel cs

/-- Captured groups of `re.finditer` for the price regex of
`Parser._extract_prices`: leftmost matches, non-overlapping, in order. -/
def findPriceGroups (s : Str) : List Str := findPriceGroupsGo s.length s

/-- Leftmost-match search: `re.search` with a positional matcher, trying
every start position from the left. -/
def searchWith (m : Str → Option α) : Str → Option α
  | [] => m []
  | c :: cs =>
    match m (c :: cs) with
    | some r => some r
    | none => searchWith m cs

/-- Matcher at one position for `([0-9]+(?:[.,][0-9]+)?)\s*%`, the first
fat-percentage pattern of `Parser._extract_fat` (line 318).  Returns the
captured group. -/
def matchFatPctAt (s : Str) : Option Str :=
  let ds := s.takeWhile isDigitCh
  if ds.isEmpty then none
  else
    let rest := s.drop ds.length
    match rest with
    | c :: r2 =>
      if (c == '.' || c == ',') && !(r2.takeWhile isDigitCh).isEmpty then
        let fr := r2.takeWhile isDigitCh
        if ((r2.drop fr.length).dropWhile isPySpace).head? == some '%' then
          some (ds ++ c :: fr)
        else none
      else if (rest.dropWhile isPySpace).head? == some '%' then some ds else none
    | [] => none

/-- Matcher at one position for `жир[^0-9]*([0-9]+(?:[.,][0-9]+)?)` with
`re.IGNORECASE`, the second fat pattern of `Parser._extract_fat` (line
319).  The greedy `[^0-9]*` cannot cross a digit, so it extends exactly
to the first digit after the keyword. -/
def matchFatZhyrAt (s : Str) : Option Str :=
  if (s.take 3).map pyLower == "жир".toList then
    let afterSkip := (s.drop 3).dropWhile (fun c => !isDigitCh c)
    let ds := afterSkip.takeWhile isDigitCh
    if ds.isEmpty then none
    else
      match afterSkip.drop ds.length with
      | c :: r2 =>
        if (c == '.' || c == ',') && !(r2.takeWhile isDigitCh).isEmpty then
          some (ds ++ c :: r2.takeWhile isDigitCh)
        else some ds
      | [] => some ds
  else none

/-- Matcher at one position for `«([^»]{2,30})»`, the quoted-brand
pattern of `Parser._extract_brand` (line 280).  The greedy `[^»]{2,30}`
must end exactly at the next `»`, so the match succeeds iff the run of
non-`»` characters after `«` has length 2–30 and is closed by `»`. -/
def matchGuillemetAt (s : Str) : Option Str :=
  match s with
  | '«' :: rest =>
    let inner := rest.takeWhile (fun c => c != '»')
    if 2 ≤ inner.length && inner.length ≤ 30 &&
        (rest.drop inner.length).head? == some '»' then
      some inner
    else none
  | _ => none

/-- First-character class of the leading-brand regex of
`Parser._extract_brand` (line 291): `[A-ZА-ЯЁІЇЄҐ]`. -/
def isUpperBrandStart (c : Char) : Bool :=
  ('A' ≤ c && c ≤ 'Z') || (0x410 ≤ c.val && c.val ≤ 0x42f) ||
  c.val == 0x401 || c.val == 0x406 || c.val == 0x407 || c.val == 0x404 ||
  c.val == 0x490

/-- Body-character class of the leading-brand regex: `\w`, the Cyrillic
letters (already inside `\w`), hyphen, the three apostrophe variants and
the backtick of the source's character class. -/
def isBrandBodyCh (c : Char) : Bool :=
  isWordCh c || c == '-' || c.val == 0x27 || c.val == 0x2bc ||
  c.val == 0x2019 || c.val == 0x60

/-- Model of `re.match(r'^([A-ZА-ЯЁІЇЄҐ][\w…\-…]{1,25})', title)` in
`Parser._extract_brand`: anchored at the start, one upper-case letter
followed by one to twenty-five body characters (greedy). -/
def matchLeadingBrand (title : Str) : Option Str :=
  match title with
  | c :: rest =>
    if isUpperBrandStart c then
      let body := (rest.takeWhile isBrandBodyCh).take 25
      if body.isEmpty then none else some (c :: body)
    else none
  | [] => none

/-- Tail check shared by the package patterns of `Parser._extract_pack`:
`\s*` followed by the case-insensitive unit literal, optionally followed
by a `\b` word-boundary check after the literal. -/
def unitBoundaryTail (unit : Str) (needBoundary : Bool) (r : Str) : Bool :=
  let r2 := r.dropWhile isPySpace
  unit.isPrefixOf (r2.map pyLower) &&
    (!needBoundary || !(((r2.drop unit.length).head?.map isWordCh).getD false))

/-- Matcher at one position for a package pattern
`([0-9]{minD,maxD}(?:[.,][0-9]+)?)\s*<unit>` (fraction only when
`allowFraction`; `maxD = none` means unbounded `+`); returns the
captured numeric group.  Covers all five patterns of
`Parser._extract_pack` (lines 338–344). -/
def matchPackNumAt (minD : ℕ) (maxD : Option ℕ) (allowFraction : Bool)
    (unit : Str) (needBoundary : Bool) (s : Str) : Option Str :=
  let ds := s.takeWhile isDigitCh
  if ds.length < minD || (maxD.map (fun m => decide (m < ds.length))).getD false then none
  else
    let rest := s.drop ds.length
    match rest with
    | c :: r2 =>
      if allowFraction && (c == '.' || c == ',') &&
          !(r2.takeWhile isDigitCh).isEmpty then
        let fr := r2.takeWhile isDigitCh
        if unitBoundaryTail unit needBoundary (r2.drop fr.length) then
          some (ds ++ c :: fr)
        else none
      else if unitBoundaryTail unit needBoundary rest then some ds else none
    | [] => if unitBoundaryTail unit needBoundary rest then some ds else none

/-- Group sub-matcher `([1-5](?:[.,][0-9])?)` of the rating patterns of
`Parser._extract_rating` (lines 358–360). -/
def ratingNumAt (s : Str) : Option Str :=
  match s with
  | c :: rest =>
    if '1' ≤ c && c ≤ '5' then
      match rest with
      | p :: d :: _ =>
        if (p == '.' || p == ',') && isDigitCh d then some [c, p, d] else some [c]
      | _ => some [c]
    else none
  | [] => none

/-- Matcher at one position for `<star>\s*([1-5](?:[.,][0-9])?)` (rating
patterns 1 and 2). -/
def matchRatingStarBefore (star : Char) (s : Str) : Option Str :=
  match s with
  | c :: rest => if c == star then ratingNumAt (rest.dropWhile isPySpace) else none
  | [] => none

/-- Matcher at one position for `([1-5](?:[.,][0-9])?)\s*(?:★|⭐)`
(rating pattern 3).  A fraction whose continuation fails cannot be
rescued by dropping it, since `[.,]` is not whitespace or a star. -/
def matchRatingStarAfter (s : Str) : Option Str :=
  match ratingNumAt s with
  | some g =>
    match ((s.drop g.length).dropWhile isPySpace).head? with
    | some c => if c == '★' || c == '⭐' then some g else none
    | none => none
  | none => none

/-- Matcher at one position for `-\s*(\d{1,2})%`, the discount marker of
`Parser._extract_prices` (line 263). -/
def matchDiscountAt (s : Str) : Option Str :=
  match s with
  | '-' :: rest =>
    let r := rest.dropWhile isPySpace
    let ds := r.takeWhile isDigitCh
    if 1 ≤ ds.length && ds.length ≤ 2 && (r.drop ds.length).head? == some '%' then
      some ds
    else none
  | _ => none

/-- Embedding of an integer into `ℚ`. -/
def qOfInt (n : ℤ) : ℚ := Rat.divInt n 1

/-!
Configuration constants from `src/config.py`.
-/

/-- Known-brand list `config.KNOWN_BRANDS`, in source order (list order is
match priority). -/
def KNOWN_BRANDS : List Str :=
  ["Яготинське", "Ферма", "Галичина", "Селянське", "ПростоНаше", "Премія",
   "Молокія", "Бурьонка", "На здоров\x27я", "Даніссімо", "Активіа",
   "Простоквашино", "Чудо", "Агуня", "Растішка", "Ростишка",
   "Lactel", "Actimel", "Danone", "Muller", "Alpro", "Valio", "Elle&Vire",
   "President", "Деліссімо",
   "Біло", "Білоцерківське", "Тульчинка", "Марійка", "Злагода"].map String.toList

/-- Category mapping `config.PRODUCT_TYPES`, in source (insertion) order. -/
def PRODUCT_TYPES : List (Str × List Str) :=
  [("молоко", ["молоко"]), ("вершки", ["вершки"]), ("сир", ["сир "]),
   ("сметана", ["сметана"]), ("йогурт", ["йогурт"]), ("кефір", ["кефір"]),
   ("ряжанка", ["ряжанка"]), ("масло", ["масло"]), ("маргарин", ["маргарин"]),
   ("яйця", ["яйце", "яйця"]), ("сирок", ["сирок"]), ("десерт", ["десерт"]),
   ("творог", ["творог", "кисломолочний"]), ("згущене", ["згущене"]),
   ("каша", ["каша", "хлопья"])].map (fun p => (p.1.toList, p.2.map String.toList))

/-- Non-brand generic words excluded by `Parser._extract_brand` (line 296). -/
def excludeBrandWords : List Str :=
  ["Молоко", "Вершки", "Кефір", "Сметана", "Йогурт", "Масло",
   "Маргарин"].map String.toList

/-- Fixed site identifier written into every record. -/
def sourceSite : Str := "https://silpo.ua".toList

/-!
Field normalizers of `src/parser.py`.
-/

/-- Model of `Parser._clean_text` (line 395) and of the first step of
`Parser._extract_title` (line 229): the explicit `replace` calls for
`\n`, `\r`, `\t` are subsumed by the `re.sub(r'\s+', ' ', …)` that
follows them, so both reduce to collapsing whitespace runs and
stripping. -/
def cleanText (s : Str) : Str := pyStrip (squeeze s)

/-- Model of `Parser._extract_title` (lines 225–241): collapse
whitespace, strip all currency-amount matches, cap at 200 characters,
strip, and reject titles shorter than 3 characters. -/
def extractTitle (text : Str) : Option Str :=
  let cleaned := cleanText text
  let withoutPrice := pyStrip (subPrice cleaned)
  let title := pyStrip (withoutPrice.take 200)
  if title.isEmpty || title.length < 3 then none else some title

/-- Model of `Parser._extract_brand` (lines 276–300): guillemet-quoted
brand, else first known brand contained case-insensitively in the
title, else the leading capitalized token when it is not a generic
category word and is longer than 2 characters, else empty. -/
def extractBrand (title : Str) : Str :=
  match searchWith matchGuillemetAt title with
  | some inner => inner
  | none =>
    let titleLower := lowerStr title
    match KNOWN_BRANDS.find? (fun b => strContains titleLower (lowerStr b)) with
    | some b => b
    | none =>
      match matchLeadingBrand title with
      | some w =>
        let brand := pyStrip w
        if !(excludeBrandWords.contains brand) && 2 < brand.length then brand
        else []
      | none => []

/-- Model of `Parser._extract_product_type` (lines 302–312): first
category whose keyword occurs in the lower-cased title. -/
def extractProductType (title : Str) : Str :=
  let titleLower := lowerStr title
  match PRODUCT_TYPES.find? (fun p => p.2.any (fun kw => strContains titleLower kw)) with
  | some p => p.1
  | none => []

/-- Range acceptance step of `Parser._extract_fat`: normalize the comma,
parse, and accept only values in `[0, 50]`; a match failing this falls
through to the next pattern. -/
def fatAccept (g : Option Str) : Option Str :=
  match g with
  | some g0 =>
    let fat := g0.map (fun c => if c == ',' then '.' else c)
    match parseNum fat with
    | some v => if decide (0 ≤ v) && decide (v ≤ 50) then some fat else none
    | none => none
  | none => none

/-- Model of `Parser._extract_fat` (lines 314–333). -/
def extractFat (title : Str) : Str :=
  match fatAccept (searchWith matchFatPctAt title) with
  | some fat => fat
  | none =>
    match fatAccept (searchWith matchFatZhyrAt title) with
    | some fat => fat
    | none => []

/-- Package field pair returned by `Parser._extract_pack`: `qty` is `none`
where the source stores the empty string. -/
structure Pack where
  qty : Option ℤ
  unit : Str
deriving DecidableEq, Repr

/-- First matching package pattern of `Parser._extract_pack` (lines
338–344), in source order; yields the captured number, the stored unit
and the multiplier. -/
def findPackMatch (title : Str) : Option (Str × Str × ℕ) :=
  match searchWith (matchPackNumAt 1 none true "л".toList true) title with
  | some g => some (g, "мл".toList, 1000)
  | none =>
  match searchWith (matchPackNumAt 2 (some 4) false "мл".toList true) title with
  | some g => some (g, "мл".toList, 1)
  | none =>
  match searchWith (matchPackNumAt 2 (some 4) false "г".toList true) title with
  | some g => some (g, "г".toList, 1)
  | none =>
  match searchWith (matchPackNumAt 1 (some 3) false "шт".toList false) title with
  | some g => some (g, "шт".toList, 1)
  | none =>
  match searchWith (matchPackNumAt 1 none true "кг".toList false) title with
  | some g => some (g, "г".toList, 1000)
  | none => none

/-- Model of `Parser._extract_pack` (lines 335–352): scaled quantity,
rounded to an integer; the quantity field is emptied (but not the unit)
when the rounded quantity is not positive. -/
def extractPack (title : Str) : Pack :=
  match findPackMatch title with
  | none => ⟨none, []⟩
  | some (g, unit, mult) =>
    let qty := pyRound (qMul (toNum g) (qOfNat mult))
    ⟨if 0 < qty then some qty else none, unit⟩

/-- Range acceptance step of `Parser._extract_rating`: accept only values
in `[1, 5]`; a match failing this falls through to the next pattern. -/
def ratingAccept (g : Option Str) : Option ℚ :=
  match g with
  | some s =>
    let v := toNum s
    if decide (1 ≤ v) && decide (v ≤ 5) then some v else none
  | none => none

/-- Model of `Parser._extract_rating` (lines 354–373). -/
def extractRating (text : Str) : Option ℚ :=
  match ratingAccept (searchWith (matchRatingStarBefore '★') text) with
  | some v => some v
  | none =>
    match ratingAccept (searchWith (matchRatingStarBefore '⭐') text) with
    | some v => some v
    | none => ratingAccept (searchWith matchRatingStarAfter text)

/-- Price information dictionary of `Parser._extract_prices`. -/
structure PriceInfo where
  current : ℚ
  old : Option ℚ
  discount : Str
  ptype : Str
deriving DecidableEq, Repr

/-- Model of `Parser._extract_prices` (lines 243–274): collect all price
matches in the open interval `(5, 2000)`; the first is the current
price; with a `-N%` marker and at least two prices, the second is the
old price. -/
def extractPrices (text : Str) : Option PriceInfo :=
  let prices := ((findPriceGroups text).map toNum).filter
    (fun p => decide (5 < p) && decide (p < 2000))
  match prices with
  | [] => none
  | current :: rest =>
    let odp : Option ℚ × Str × Str :=
      match searchWith matchDiscountAt text, rest with
      | some d, old :: _ => (some old, d, "discount".toList)
      | _, _ => (none, [], "regular".toList)
    some ⟨current, odp.1, odp.2.1, odp.2.2⟩

/-- Model of `Parser._calculate_price_per_unit` (lines 375–392).  The
source's falsy test `not price or not pack['qty']` rejects a zero price
and an empty or zero quantity; `шт` divides by the piece count, any
other unit by the quantity scaled to base-1000 units, guarded to be
positive. -/
def calcPricePerUnit (price : ℚ) (pack : Pack) : Option ℚ :=
  match pack.qty with
  | none => none
  | some q =>
    if price == 0 || q == 0 then none
    else if pack.unit == "шт".toList then
      some (round2 (qDiv price (qOfInt q)))
    else
      let baseQty := qDiv (qOfInt q) (qOfNat 1000)
      if baseQty ≤ 0 then none
      else some (round2 (qDiv price baseQty))

/-!
Records and extraction strategies of `src/parser.py`.
-/

/-- Product record of the extractor: the dictionary built in
`Parser._parse_element` and `Parser._extract_with_regex`, with the
source's column names (`config.CSV_HEADERS`).  String-or-empty columns
are `Str` (empty list for `''`); number-or-empty columns are
`Option`. -/
structure ProductRecord where
  upload_ts : Str
  page_url : Str
  page_number : ℕ
  source : Str
  product_title : Str
  brand : Str
  product_type : Str
  fat_pct : Str
  pack_qty : Option ℤ
  pack_unit : Str
  price_current : ℚ
  price_old : Option ℚ
  discount_pct : Str
  price_per_l_or_kg_or_piece : Option ℚ
  rating : Option ℚ
  price_type : Str
deriving DecidableEq, Repr

/-- Abstraction of a BeautifulSoup element as `Parser._parse_element`
consumes it: its own visible text and its parent's visible text (empty
when the element has no parent, which coincides with the source's
`''` branch). -/
structure Element where
  text : Str
  parentText : Str
deriving DecidableEq, Repr

/-- Model of `Parser._parse_element` (lines 179–223).  The body's
`try/except` returns `None` on an internal error; every operation of
the body is total in this embedding, so the model is the body itself. -/
def parseElement (e : Element) (pageUrl batchStamp : Str) (pageNumber : ℕ) :
    Option ProductRecord :=
  match extractTitle e.text with
  | none => none
  | some title =>
    if title.length < 5 then none
    else
      let fullText := e.text ++ ' ' :: e.parentText
      match extractPrices fullText with
      | none => none
      | some pi =>
        if pi.current == 0 then none
        else
          let pack := extractPack title
          some {
            upload_ts := batchStamp
            page_url := pageUrl
            page_number := pageNumber
            source := sourceSite
            product_title := title
            brand := extractBrand title
            product_type := extractProductType title
            fat_pct := extractFat title
            pack_qty := pack.qty
            pack_unit := pack.unit
            price_current := pi.current
            price_old := pi.old
            discount_pct := pi.discount
            price_per_l_or_kg_or_piece := calcPricePerUnit pi.current pack
            rating := extractRating fullText
            price_type := pi.ptype }

/-- Selector list of `Parser._extract_with_beautifulsoup` (lines 85–91),
in source order (order of preference). -/
def SELECTORS : List String :=
  ["h3", "[class*=\x22product\x22]", "[class*=\x22item\x22]",
   "a[href*=\x22/product/\x22]", "div.product"]

/-- Model of the selector loop of `Parser._extract_with_beautifulsoup`
(lines 93–112).  `soup` abstracts `soup.select`: the elements each CSS
selector matches in the parsed markup.  Besides the record list the
model returns a trace: the list of every element that was handed to
`Parser._parse_element`, in order — the loop body only parses elements
of a selector matching strictly more than 3 elements, and stops at the
first selector whose parses yield at least one record. -/
def extractWithBS (soup : String → List Element) (pageUrl batchStamp : Str)
    (pageNumber : ℕ) : List String → List ProductRecord × List Element
  | [] => ([], [])
  | sel :: rest =>
    let elements := soup sel
    if 3 < elements.length then
      let parsed := elements.filterMap
        (fun e => parseElement e pageUrl batchStamp pageNumber)
      if parsed.isEmpty then
        let r := extractWithBS soup pageUrl batchStamp pageNumber rest
        (r.1, elements ++ r.2)
      else (parsed, elements)
    else extractWithBS soup pageUrl batchStamp pageNumber rest

/-- One match of the pattern-mining regex of `Parser._extract_with_regex`
(line 125): the captured title run (group 1) and price numeral
(group 2).  The production of these matches by `re.finditer` over the
raw markup is the abstraction boundary of this strategy's model; the
loop body over the matches is translated exactly. -/
structure RegexMatch where
  titleRaw : Str
  priceStr : Str
deriving DecidableEq, Repr

/-- Match loop of `Parser._extract_with_regex` (lines 129–176), with the
`seen_titles` set carried as a list: clean the title, reject lengths
outside 5–200, deduplicate, parse the price and reject it only when
`price < 5 or price > 2000`, then build the record with the shared
field normalizers. -/
def extractWithRegexGo (pageUrl batchStamp : Str) (pageNumber : ℕ) :
    List RegexMatch → List Str → List ProductRecord
  | [], _ => []
  | m :: rest, seen =>
    let title := cleanText m.titleRaw
    if title.isEmpty || title.length < 5 || 200 < title.length then
      extractWithRegexGo pageUrl batchStamp pageNumber rest seen
    else if seen.contains title then
      extractWithRegexGo pageUrl batchStamp pageNumber rest seen
    else
      let seen2 := title :: seen
      let price := toNum m.priceStr
      if decide (price < 5) || decide (2000 < price) then
        extractWithRegexGo pageUrl batchStamp pageNumber rest seen2
      else
        let pack := extractPack title
        { upload_ts := batchStamp
          page_url := pageUrl
          page_number := pageNumber
          source := sourceSite
          product_title := title
          brand := extractBrand title
          product_type := extractProductType title
          fat_pct := extractFat title
          pack_qty := pack.qty
          pack_unit := pack.unit
          price_current := price
          price_old := none
          discount_pct := []
          price_per_l_or_kg_or_piece := calcPricePerUnit price pack
          rating := none
          price_type := "regular".toList }
          :: extractWithRegexGo pageUrl batchStamp pageNumber rest seen2

/-- Model of `Parser._extract_with_regex` (lines 114–177): run the match
loop with an empty seen-title set. -/
def extractWithRegex (ms : List RegexMatch) (pageUrl batchStamp : Str)
    (pageNumber : ℕ) : List ProductRecord :=
  extractWithRegexGo pageUrl batchStamp pageNumber ms []

/-- Model of `Parser.extract_products` (lines 22–72): empty or short
markup returns no records at once; otherwise the BeautifulSoup strategy
(when the library is available) wins if it yields records, else the
regex strategy.  `soup` and `regexMatches` abstract, respectively, the
parsed-markup selector results and the `re.finditer` matches derived
from `html`. -/
def extract_products (hasBS4 : Bool) (soup : String → List Element)
    (regexMatches : List RegexMatch) (html : Str) (pageUrl batchStamp : Str)
    (pageNumber : ℕ) : List ProductRecord :=
  if html.isEmpty || html.length < 1000 then []
  else
    let bs := if hasBS4 then
        (extractWithBS soup pageUrl batchStamp pageNumber SELECTORS).1
      else []
    if !bs.isEmpty then bs
    else
      let rx := extractWithRegex regexMatches pageUrl batchStamp pageNumber
      if !rx.isEmpty then rx else []

/-!
Fetch loop of `src/scraper.py` (`Scraper.fetch_page`, lines 59–125).
-/

/-- Outcome of a single HTTP attempt, as seen by the body of the attempt
loop: a response with a status and a body text, a timeout exception, or
a connection-error exception. -/
inductive AttemptOutcome
  | response (status : ℕ) (body : Str)
  | timeout
  | connectionError (msg : Str)
deriving DecidableEq, Repr

/-- Failure reason recorded in `last_error`, one constructor per distinct
message of the source (lines 88–116); data-carrying constructors hold
the interpolated values. -/
inductive FailReason
  | http404
  | http403
  | http429
  | httpOther (status : ℕ)
  | timeout
  | connError (msg : Str)
  | shortBody (chars : ℕ)
  | notHtml
deriving DecidableEq, Repr

/-- Classification of one attempt by the body of the attempt loop (lines
76–116): status checks in source order, then the body-length check,
then the HTML-shape check on the first 500 characters; the raised
exception becomes `Except.error` (every raise in the body is caught by
the handlers of lines 108–116). -/
def classify : AttemptOutcome → Except FailReason Str
  | .timeout => .error .timeout
  | .connectionError m => .error (.connError m)
  | .response status body =>
    if status == 404 then .error .http404
    else if status == 403 then .error .http403
    else if status == 429 then .error .http429
    else if 400 ≤ status then .error (.httpOther status)
    else if body.isEmpty || body.length < 1000 then .error (.shortBody body.length)
    else if !(strContains (body.take 500) "DOCTYPE".toList) &&
        !(strContains (body.take 500) "<html".toList) then .error .notHtml
    else .ok body

/-- Result of a `fetch_page` run: the returned body (`none` models the
`return None` after exhaustion), the number of attempts performed, the
sleep durations in order, and the final `last_error`. -/
structure FetchResult where
  html : Option Str
  attemptsUsed : ℕ
  sleeps : List ℚ
  lastError : Option FailReason
deriving DecidableEq, Repr

/-- Attempt loop of `Scraper.fetch_page`: `attempt` is the 1-based loop
counter, `last` the current `last_error`, and the list holds the
outcomes of the remaining attempts (so `max_attempts` is the initial
list length).  After a failed attempt that is not the last one the loop
sleeps `RETRY_DELAY * attempt` (line 120). -/
def fetchGo (d : ℚ) : ℕ → Option FailReason → List AttemptOutcome → FetchResult
  | attempt, last, [] => ⟨none, attempt - 1, [], last⟩
  | attempt, last, o :: rest =>
    match classify o with
    | .ok body => ⟨some body, attempt, [], last⟩
    | .error r =>
      let next := fetchGo d (attempt + 1) (some r) rest
      ⟨next.html, next.attemptsUsed,
        if rest.isEmpty then next.sleeps
        else qMul d (qOfNat attempt) :: next.sleeps,
        next.lastError⟩

/-- Model of `Scraper.fetch_page url max_attempts`, where `outcomes`
lists the outcome of each of the `max_attempts` possible attempts and
`d` is `config.RETRY_DELAY`. -/
def fetch_page (d : ℚ) (outcomes : List AttemptOutcome) : FetchResult :=
  fetchGo d 1 none outcomes

/-!
Pagination discovery of `src/main.py` (`SilpoScraper.find_last_page`,
lines 198–237, and `SilpoScraper.generate_page_urls`, lines 239–251).
-/

/-- Scan results of the fetched markup that `find_last_page` consumes:
the integers captured by `re.findall(r'[?&]page=(\d+)', html)`, the
first-group integers of the link-text `findall` of lines 215–219, and
whether `'page=' in html`.  The claim over this model quantifies over
every scan value, so abstracting the two `findall`s only strengthens
the statement. -/
structure PageHtmlScan where
  pageParamMatches : List ℕ
  linkTextMatches : List ℕ
  hasPageMarker : Bool
deriving DecidableEq, Repr

/-- Input of `find_last_page`: the fetch may fail (`fetch_page` returned
`None`), succeed with markup, or the body may raise an exception caught
by the handler of line 235. -/
inductive PaginationFetch
  | fetchFailed
  | fetched (scan : PageHtmlScan)
  | raisedError
deriving DecidableEq, Repr

/-- Python `max` over the collected page numbers (all are non-negative). -/
def maxOf (l : List ℕ) : ℕ := l.foldr max 0

/-- Model of `SilpoScraper.find_last_page` with `maxPages`
standing for `config.MAX_PAGES`: method 1 returns its maximum only when
it does not exceed `maxPages` (else falls through), method 2 likewise
(clamped), method 3 returns `min 10 maxPages` when a `page=` marker
exists, else the default 1; a failed fetch gives `min 10 maxPages` and
an exception gives `min 5 maxPages`. -/
def find_last_page (maxPages : ℕ) : PaginationFetch → ℕ
  | .fetchFailed => min 10 maxPages
  | .raisedError => min 5 maxPages
  | .fetched scan =>
    if scan.pageParamMatches ≠ [] ∧ maxOf scan.pageParamMatches ≤ maxPages then
      maxOf scan.pageParamMatches
    else if scan.linkTextMatches ≠ [] ∧ maxOf scan.linkTextMatches ≤ maxPages then
      min (maxOf scan.linkTextMatches) maxPages
    else if scan.hasPageMarker then min 10 maxPages
    else 1

/-- Model of `SilpoScraper.generate_page_urls`: one URL per page from 1
to `maxPage`, the first without a query parameter. -/
def generate_page_urls (base : Str) (maxPage : ℕ) : List Str :=
  (List.range' 1 maxPage).map (fun p =>
    if p == 1 then base else base ++ "?page=".toList ++ (Nat.repr p).toList)

/-!
Remaining definitions used by the theorems below: the specification-side
recomputation for the unit-price refinement claim, derived views of the
fetch classifier, and concrete fixtures for witnesses.
-/

/-- Reason of a failing attempt, `none` when the attempt succeeds. -/
def errorOf (o : AttemptOutcome) : Option FailReason :=
  match classify o with
  | .error r => some r
  | .ok _ => none

/-- Whether the attempt loop body classifies this outcome as a failure. -/
def attemptFails (o : AttemptOutcome) : Bool := (errorOf o).isSome

/-- No two adjacent characters are both whitespace. -/
def noDoubleWS : Str → Bool
  | [] => true
  | [_] => true
  | c :: d :: rest => !(isPySpace c && isPySpace d) && noDoubleWS (d :: rest)

/-- Specification-side recomputation of the unit price, following the
spec -- Field Normalizers, Price per unit: empty if price or quantity
absent (a zero price is the falsy "absent" price); for unit piece,
price divided by quantity rounded to 2 decimals; otherwise quantity is
in base-1000 units, so price divided by quantity/1000, rounded to 2
decimals; empty if the divisor is not positive. -/
def pricePerUnitSpec (price : ℚ) (pack : Pack) : Option ℚ :=
  match pack.qty with
  | none => none
  | some q =>
    if price = 0 then none
    else if pack.unit = "шт".toList then
      if (q : ℚ) ≤ 0 then none else some (round2 (price / (q : ℚ)))
    else if (q : ℚ) / 1000 ≤ 0 then none
    else some (round2 (price / ((q : ℚ) / 1000)))

/-- A 2000-character HTML body passing both response validations. -/
def sampleHtml : Str := "<html>".toList ++ List.replicate 1994 'a'

/-- Three attempts all answered with HTTP 403. -/
def allForbidden : List AttemptOutcome :=
  [.response 403 [], .response 403 [], .response 403 []]

/-- A soup in which the first selector matches exactly three elements
and every other selector matches none. -/
def exampleSoup : String → List Element := fun sel =>
  if sel = "h3" then
    [⟨"Молоко А 45.50 грн".toList, []⟩,
     ⟨"Молоко Б 46.50 грн".toList, []⟩,
     ⟨"Молоко В 47.50 грн".toList, []⟩]
  else []

/-- Title of the walked-through scenario of the spec (45.50 = 91/2). -/
def scenarioTitle : Str := "Молоко Яготинське 2.5% 1л 45.50 грн".toList

/-- Record produced by the regex strategy for the single match
`("Молоко Тест", "45.50")` on an empty page context (45.50 = 91/2). -/
def sampleRegexRecord : ProductRecord :=
  { upload_ts := [], page_url := [], page_number := 1, source := sourceSite,
    product_title := "Молоко Тест".toList, brand := [],
    product_type := "молоко".toList, fat_pct := [], pack_qty := none,
    pack_unit := [], price_current := Rat.divInt 91 2, price_old := none,
    discount_pct := [], price_per_l_or_kg_or_piece := none, rating := none,
    price_type := "regular".toList }

theorem qDiv_eq (a b : ℚ) : qDiv a b = a / b := (Rat.div_def' a b).symm

theorem qMul_eq (a b : ℚ) : qMul a b = a * b := by
  rw [qMul]
  conv_rhs => rw [← Rat.num_divInt_den a, ← Rat.num_divInt_den b]
  rw [Rat.divInt_mul_divInt']

theorem qOfNat_eq (n : ℕ) : qOfNat n = (n : ℚ) := Rat.divInt_one n

theorem qOfInt_eq (n : ℤ) : qOfInt n = (n : ℚ) := Rat.divInt_one n


/-!
Helper lemmas about the package normalizer.
-/

/-- Any unit stored by a successful package match is one of the three
literal units of the pattern table. -/
theorem findPackMatch_unit (title g u : Str) (m : ℕ)
    (h : findPackMatch title = some (g, u, m)) :
    u = "мл".toList ∨ u = "г".toList ∨ u = "шт".toList := by
  unfold findPackMatch at h
  repeat' split at h
  all_goals simp_all

/-- A quantity stored by the package normalizer is positive. -/
theorem extractPack_qty_pos (title : Str) (q : ℤ)
    (h : (extractPack title).qty = some q) : 0 < q := by
  unfold extractPack at h
  rcases hm : findPackMatch title with _ | ⟨g, u, m⟩ <;> rw [hm] at h
  · simp at h
  · simp only at h
    split at h
    · next hpos => rw [Option.some.injEq] at h; omega
    · simp at h

/-- A unit stored by the package normalizer is never the empty string. -/
theorem extractPack_unit_ne_empty (title : Str)
    (h : findPackMatch title ≠ none) : (extractPack title).unit ≠ [] := by
  rcases hm : findPackMatch title with _ | ⟨g, u, m⟩
  · exact absurd hm h
  · have hu := findPackMatch_unit title g u m hm
    unfold extractPack
    rw [hm]
    rcases hu with h1 | h1 | h1 <;> simp [h1]

/-- C2 (corrected, counterexample): on the title "Молоко 0 л" the first
package pattern matches quantity `0`, and the normalizer stores the
unit `мл` with an empty quantity, so the fields are neither both
present nor both absent. -/
theorem pack_pairing_cex :
    extractPack "Молоко 0 л".toList = ⟨none, "мл".toList⟩ ∧
    ¬(((extractPack "Молоко 0 л".toList).qty = none ∧
        (extractPack "Молоко 0 л".toList).unit = []) ∨
      ((extractPack "Молоко 0 л".toList).qty ≠ none ∧
        (extractPack "Молоко 0 л".toList).unit ≠ [])) := by
  decide

/-- C2 (amended): for every title, a stored pack quantity always comes
with a non-empty unit, and an empty unit means no quantity is stored; a
unit may however appear without a quantity, exactly when the first
matching pattern's rounded quantity is not positive. -/
theorem pack_qty_unit_pairing (title : Str) :
    ((extractPack title).qty.isSome → (extractPack title).unit ≠ []) ∧
    ((extractPack title).unit = [] → (extractPack title).qty = none) := by
  rcases hm : findPackMatch title with _ | ⟨g, u, m⟩
  · constructor
    · intro h
      unfold extractPack at h
      rw [hm] at h
      simp at h
    · intro _
      unfold extractPack
      rw [hm]
  · have hne : (extractPack title).unit ≠ [] :=
      extractPack_unit_ne_empty title (by rw [hm]; simp)
    exact ⟨fun _ => hne, fun h => absurd h hne⟩

/-- Witness for `pack_qty_unit_pairing` at the title "Тест 5 шт", whose
pack is `(5, шт)`. -/
theorem pack_qty_unit_pairing_witness :
    (extractPack "Тест 5 шт".toList).unit ≠ [] :=
  (pack_qty_unit_pairing "Тест 5 шт".toList).1 (by decide)

/-- C4 (confirmed): quantities stored by the package normalizer are
positive, and for every price and every pack with positive stored
quantity the source's unit-price computation equals the documented
formula (`pricePerUnitSpec`, written from the spec's words). -/
theorem price_per_unit_formula :
    (∀ title q, (extractPack title).qty = some q → 0 < q) ∧
    (∀ (price : ℚ) (pack : Pack), (∀ q, pack.qty = some q → 0 < q) →
      calcPricePerUnit price pack = pricePerUnitSpec price pack) := by
  refine ⟨fun t q h => extractPack_qty_pos t q h, ?_⟩
  intro price pack hq
  rcases pack with ⟨qty, unit⟩
  rcases qty with _ | q
  · rfl
  · have hq0 : 0 < q := hq q rfl
    have hqne : q ≠ 0 := by omega
    have hqc : (0 : ℚ) < (q : ℚ) := by exact_mod_cast hq0
    unfold calcPricePerUnit pricePerUnitSpec
    simp only [qDiv_eq, qOfInt_eq, qOfNat_eq]
    by_cases hp : price = 0
    · simp [hp]
    · have hcond : (price == 0 || q == 0) = false := by
        simp [hp, hqne]
      rw [hcond, if_neg hp]
      simp only [Bool.false_eq_true, if_false]
      by_cases hu : unit = "шт".toList
      · rw [if_pos (by exact beq_iff_eq.mpr hu), if_pos hu,
          if_neg (by exact not_le.mpr hqc)]
      · rw [if_neg (by exact fun hb => hu (beq_iff_eq.mp hb)), if_neg hu]
        norm_num
  
/-- Witness for the second part of `price_per_unit_formula` at price 10
and pack `(2, шт)`. -/
theorem price_per_unit_formula_witness :
    calcPricePerUnit 10 ⟨some 2, "шт".toList⟩ =
      pricePerUnitSpec 10 ⟨some 2, "шт".toList⟩ :=
  price_per_unit_formula.2 10 ⟨some 2, "шт".toList⟩ (fun q h => by
    simp only [Option.some.injEq] at h
    omega)

/-- C8 (confirmed): on the title "Молоко Яготинське 2.5% 1л 45.50 грн"
the normalizers yield brand Яготинське, product type молоко, fat 2.5,
pack 1000 мл, and at the current price 45.50 (= 91/2) the derived unit
price is 45.50 per liter. -/
theorem scenario_yahotynske :
    extractBrand scenarioTitle = "Яготинське".toList ∧
    extractProductType scenarioTitle = "молоко".toList ∧
    extractFat scenarioTitle = "2.5".toList ∧
    extractPack scenarioTitle = ⟨some 1000, "мл".toList⟩ ∧
    calcPricePerUnit (Rat.divInt 91 2) (extractPack scenarioTitle) =
      some (Rat.divInt 91 2) := by
  decide

/-- C9 (confirmed): markup shorter than 1000 characters (the empty
markup included) yields no records, whatever either strategy would
return — the strategies are parameters of the model, so the equality
holds without invoking them. -/
theorem extract_products_short_markup (hasBS4 : Bool)
    (soup : String → List Element) (regexMatches : List RegexMatch)
    (html pageUrl batchStamp : Str) (pageNumber : ℕ)
    (h : html.length < 1000) :
    extract_products hasBS4 soup regexMatches html pageUrl batchStamp
      pageNumber = [] := by
  unfold extract_products
  rw [if_pos (by simp [h])]

/-- Witness for `extract_products_short_markup` on the empty markup. -/
theorem extract_products_short_markup_witness :
    extract_products true exampleSoup [] [] [] [] 1 = [] :=
  extract_products_short_markup true exampleSoup [] [] [] [] 1 (by decide)

/-- C10 (confirmed): whenever the configured page maximum is at least 1,
pagination discovery returns a page count bounded by it on every
input — fetch failure, any scan of fetched markup, or an internal
exception — and the generated URL list is never longer than the
maximum. -/
theorem find_last_page_bounded (maxPages : ℕ) (base : Str)
    (hmp : 1 ≤ maxPages) (input : PaginationFetch) :
    find_last_page maxPages input ≤ maxPages ∧
    (generate_page_urls base
      (find_last_page maxPages input)).length ≤ maxPages := by
  have hlen : ∀ n, (generate_page_urls base n).length = n := fun n => by
    simp [generate_page_urls]
  have hb : find_last_page maxPages input ≤ maxPages := by
    cases input with
    | fetchFailed => exact min_le_right _ _
    | raisedError => exact min_le_right _ _
    | fetched scan =>
      show (if scan.pageParamMatches ≠ [] ∧ maxOf scan.pageParamMatches ≤ maxPages
          then maxOf scan.pageParamMatches
          else if scan.linkTextMatches ≠ [] ∧ maxOf scan.linkTextMatches ≤ maxPages
          then min (maxOf scan.linkTextMatches) maxPages
          else if scan.hasPageMarker then min 10 maxPages else 1) ≤ maxPages
      split_ifs with h1 h2 h3
      · exact h1.2
      · exact min_le_right _ _
      · exact min_le_right _ _
      · exact hmp
  exact ⟨hb, by rw [hlen]; exact hb⟩

/-- Witness for `find_last_page_bounded` at the configured maximum 10
and a failed fetch. -/
theorem find_last_page_bounded_witness :
    find_last_page 10 .fetchFailed ≤ 10 ∧
    (generate_page_urls [] (find_last_page 10 .fetchFailed)).length ≤ 10 :=
  find_last_page_bounded 10 [] (by decide) .fetchFailed

/-!
Helper lemmas for the price-bound claim.
-/

/-- Every record built by the regex match loop has its parsed price in
the closed interval `[5, 2000]` (the loop skips a match only when
`price < 5 or price > 2000`). -/
theorem extractWithRegexGo_price_bounds (pageUrl batchStamp : Str)
    (pageNumber : ℕ) :
    ∀ (ms : List RegexMatch) (seen : List Str) (r : ProductRecord),
      r ∈ extractWithRegexGo pageUrl batchStamp pageNumber ms seen →
      5 ≤ r.price_current ∧ r.price_current ≤ 2000 := by
  intro ms
  induction ms with
  | nil =>
    intro seen r h
    simp [extractWithRegexGo] at h
  | cons m rest ih =>
    intro seen r h
    rw [extractWithRegexGo] at h
    split at h
    · exact ih _ _ h
    · split at h
      · exact ih _ _ h
      · simp only [] at h
        split at h
        · exact ih _ _ h
        · next hprice =>
          rcases List.mem_cons.mp h with rfl | hmem
          · simp only [Bool.or_eq_true, decide_eq_true_eq, not_or] at hprice
            exact ⟨not_lt.mp hprice.1, not_lt.mp hprice.2⟩
          · exact ih _ _ hmem

/-- The current price reported by `Parser._extract_prices` lies strictly
between 5 and 2000 (it is the head of the filtered price list). -/
theorem extractPrices_bounds (text : Str) (pi : PriceInfo)
    (h : extractPrices text = some pi) : 5 < pi.current ∧ pi.current < 2000 := by
  rw [extractPrices] at h
  generalize hg : ((findPriceGroups text).map toNum).filter
      (fun p => decide (5 < p) && decide (p < 2000)) = prices at h
  rcases prices with _ | ⟨cur, rest⟩
  · simp at h
  · have hc : cur ∈ ((findPriceGroups text).map toNum).filter
        (fun p => decide (5 < p) && decide (p < 2000)) := by
      rw [hg]
      exact List.mem_cons_self _ _
    have hbounds := List.of_mem_filter hc
    simp only [Bool.and_eq_true, decide_eq_true_eq] at hbounds
    simp only [Option.some.injEq] at h
    subst h
    exact hbounds

/-- The current price of every record built by `Parser._parse_element`
lies strictly between 5 and 2000. -/
theorem parseElement_price_bounds (e : Element) (url b : Str) (n : ℕ)
    (r : ProductRecord) (h : parseElement e url b n = some r) :
    5 < r.price_current ∧ r.price_current < 2000 := by
  rw [parseElement] at h
  rcases htt : extractTitle e.text with _ | title <;> rw [htt] at h
  · simp at h
  · rcases hp : extractPrices (e.text ++ ' ' :: e.parentText) with _ | pi <;>
      simp only [hp] at h
    · split at h <;> simp at h
    · split at h
      · simp at h
      · split at h
        · simp at h
        · rw [Option.some.injEq] at h
          subst h
          exact extractPrices_bounds _ _ hp

/-- C1 (amended): the pattern-mining fallback emits only records with
price in the closed interval `[5, 2000]` (so exactly 5 or exactly
2000 is emitted), while the structured-markup strategy emits only
records with price in the open interval `(5, 2000)`. -/
theorem price_current_bounds :
    (∀ ms url b n r, r ∈ extractWithRegex ms url b n →
      5 ≤ r.price_current ∧ r.price_current ≤ 2000) ∧
    (∀ e url b n r, parseElement e url b n = some r →
      5 < r.price_current ∧ r.price_current < 2000) :=
  ⟨fun ms url b n r h => extractWithRegexGo_price_bounds url b n ms [] r h,
   fun e url b n r h => parseElement_price_bounds e url b n r h⟩

/-- Witness for `price_current_bounds` on the single regex match
`("Молоко Тест", "45.50")`. -/
theorem price_current_bounds_witness :
    5 ≤ sampleRegexRecord.price_current ∧
      sampleRegexRecord.price_current ≤ 2000 :=
  price_current_bounds.1 [⟨"Молоко Тест".toList, "45.50".toList⟩] [] [] 1
    sampleRegexRecord (by decide)

set_option maxRecDepth 40000 in
/-- C1 (corrected, counterexample): on 1000-character markup whose regex
scan yields the match `("Молоко Тест", "2000")`, the extractor emits a
record with `price_current = 2000`, which is outside the open interval
`(5, 2000)`. -/
theorem price_current_bounds_cex :
    ∃ r ∈ extract_products false exampleSoup
      [⟨"Молоко Тест".toList, "2000".toList⟩] (List.replicate 1000 'x')
      [] [] 1, ¬(5 < r.price_current ∧ r.price_current < 2000) := by
  decide

/-!
Helper lemmas for the fetch loop.
-/

/-- Attempt accounting of the fetch loop: an empty outcome list leaves
the counter at `a - 1`, a non-empty one advances it to at least `a`. -/
theorem fetchGo_attempts (d : ℚ) :
    ∀ (l : List AttemptOutcome) (a : ℕ) (last : Option FailReason),
      (l = [] → (fetchGo d a last l).attemptsUsed = a - 1) ∧
      (l ≠ [] → a ≤ (fetchGo d a last l).attemptsUsed) := by
  intro l
  induction l with
  | nil => exact fun a last => ⟨fun _ => rfl, fun h => absurd rfl h⟩
  | cons o rest ih =>
    intro a last
    refine ⟨fun h => by simp at h, fun _ => ?_⟩
    rw [fetchGo]
    cases hc : classify o with
    | ok body => exact le_refl a
    | error r =>
      show a ≤ (fetchGo d (a + 1) (some r) rest).attemptsUsed
      by_cases hre : rest = []
      · rw [(ih (a + 1) (some r)).1 hre]
        omega
      · exact le_trans (Nat.le_succ a) ((ih (a + 1) (some r)).2 hre)

/-- A run in which every attempt fails returns no body, performs one
attempt per outcome, and ends with the last outcome's failure reason. -/
theorem fetchGo_all_fail (d : ℚ) :
    ∀ (l : List AttemptOutcome) (a : ℕ) (last : Option FailReason),
      (∀ o ∈ l, attemptFails o = true) → l ≠ [] →
      (fetchGo d a last l).html = none ∧
      (fetchGo d a last l).attemptsUsed + 1 = a + l.length ∧
      (fetchGo d a last l).lastError = l.getLast?.bind errorOf := by
  intro l
  induction l with
  | nil => exact fun a last _ h => absurd rfl h
  | cons o rest ih =>
    intro a last hf _
    have hfo : attemptFails o = true := hf o (List.mem_cons_self _ _)
    rw [fetchGo]
    cases hc : classify o with
    | ok body =>
      rw [attemptFails, errorOf, hc] at hfo
      simp at hfo
    | error r =>
      have her : errorOf o = some r := by rw [errorOf, hc]
      by_cases hre : rest = []
      · subst hre
        refine ⟨rfl, rfl, ?_⟩
        show some r = [o].getLast?.bind errorOf
        rw [show ([o].getLast? = some o) from rfl]
        rw [Option.some_bind, her]
      · obtain ⟨ih1, ih2, ih3⟩ :=
          ih (a + 1) (some r) (fun x hx => hf x (List.mem_cons_of_mem _ hx)) hre
        refine ⟨ih1, ?_, ?_⟩
        · show (fetchGo d (a + 1) (some r) rest).attemptsUsed + 1 =
            a + (rest.length + 1)
          omega
        · show (fetchGo d (a + 1) (some r) rest).lastError =
            (o :: rest).getLast?.bind errorOf
          rcases rest with _ | ⟨o2, rest2⟩
          · exact absurd rfl hre
          · rw [List.getLast?_cons_cons]
            exact ih3

/-- C3 (confirmed): when every one of the `maxAttempts` attempt outcomes
fails, `fetch_page` performs exactly `maxAttempts` attempts, returns no
body (the model is a total function, matching the source's catch-all
handlers: no exception escapes), and its failure value carries the last
attempt's reason; in particular an all-403 run ends with the
forbidden/blocked reason. -/
theorem fetch_exhausts_attempts (d : ℚ) (outcomes : List AttemptOutcome)
    (hne : outcomes ≠ []) (hf : ∀ o ∈ outcomes, attemptFails o = true) :
    (fetch_page d outcomes).html = none ∧
    (fetch_page d outcomes).attemptsUsed = outcomes.length ∧
    (fetch_page d outcomes).lastError = outcomes.getLast?.bind errorOf ∧
    ((∀ o ∈ outcomes, ∃ body, o = .response 403 body) →
      (fetch_page d outcomes).lastError = some .http403) := by
  simp only [fetch_page]
  obtain ⟨h1, h2, h3⟩ := fetchGo_all_fail d outcomes 1 none hf hne
  refine ⟨h1, by omega, h3, ?_⟩
  intro h403
  rw [h3]
  obtain ⟨o, ho⟩ : ∃ o, outcomes.getLast? = some o :=
    ⟨_, List.getLast?_eq_getLast_of_ne_nil hne⟩
  have homem : o ∈ outcomes := by
    rcases List.mem_getLast?_eq_getLast (ho ▸ rfl : o ∈ outcomes.getLast?) with
      ⟨hne2, rfl⟩
    exact List.getLast_mem hne2
  rw [ho, Option.some_bind]
  rcases h403 o homem with ⟨body, rfl⟩
  rfl

/-- Witness for `fetch_exhausts_attempts`: three attempts all answered
with HTTP 403 at retry delay 2. -/
theorem fetch_exhausts_attempts_witness :
    (fetch_page 2 allForbidden).html = none ∧
    (fetch_page 2 allForbidden).attemptsUsed = allForbidden.length ∧
    (fetch_page 2 allForbidden).lastError = allForbidden.getLast?.bind errorOf ∧
    ((∀ o ∈ allForbidden, ∃ body, o = .response 403 body) →
      (fetch_page 2 allForbidden).lastError = some .http403) :=
  fetch_exhausts_attempts 2 allForbidden (by decide) (by decide)

/-- Sleep schedule of the fetch loop: starting at attempt `a`, the run
sleeps `d * k` for each `k` from `a` up to the last attempt that failed
and was not the final one — equivalently up to `attemptsUsed - 1`. -/
theorem fetchGo_sleeps (d : ℚ) :
    ∀ (l : List AttemptOutcome) (a : ℕ) (last : Option FailReason),
      (fetchGo d a last l).sleeps =
        (List.range' a ((fetchGo d a last l).attemptsUsed - a)).map
          (fun k => qMul d (qOfNat k)) := by
  intro l
  induction l with
  | nil =>
    intro a last
    show ([] : List ℚ) = (List.range' a (a - 1 - a)).map _
    rw [Nat.sub_sub, Nat.sub_eq_zero_of_le (Nat.le_add_left a 1)]
    rfl
  | cons o rest ih =>
    intro a last
    rw [fetchGo]
    cases hc : classify o with
    | ok body =>
      show ([] : List ℚ) = (List.range' a (a - a)).map _
      rw [Nat.sub_self]
      rfl
    | error r =>
      by_cases hre : rest = []
      · subst hre
        show (fetchGo d (a + 1) (some r) []).sleeps =
          (List.range' a ((fetchGo d (a + 1) (some r) []).attemptsUsed - a)).map _
        show ([] : List ℚ) = (List.range' a (a + 1 - 1 - a)).map _
        rw [Nat.add_sub_cancel, Nat.sub_self]
        rfl
      · have hge : a + 1 ≤ (fetchGo d (a + 1) (some r) rest).attemptsUsed :=
          (fetchGo_attempts d rest (a + 1) (some r)).2 hre
        have hif : rest.isEmpty = false := by
          simpa using hre
        show (if rest.isEmpty then (fetchGo d (a + 1) (some r) rest).sleeps
            else qMul d (qOfNat a) :: (fetchGo d (a + 1) (some r) rest).sleeps) =
          (List.range' a ((fetchGo d (a + 1) (some r) rest).attemptsUsed - a)).map _
        rw [hif]
        simp only [Bool.false_eq_true, if_false]
        rw [ih (a + 1) (some r)]
        have harith : (fetchGo d (a + 1) (some r) rest).attemptsUsed - a =
            ((fetchGo d (a + 1) (some r) rest).attemptsUsed - (a + 1)) + 1 := by
          omega
        rw [harith, List.range'_succ, List.map_cons]

/-- Run shape of the scenario `[timeout, timeout, 200-OK]` for any body
accepted by the response validation: the body is returned at attempt 3
after sleeping `d*1` and `d*2`. -/
theorem fetch_scenario_run (d : ℚ) (body : Str)
    (hok : classify (.response 200 body) = Except.ok body) :
    fetch_page d [.timeout, .timeout, .response 200 body] =
      ⟨some body, 3, [qMul d (qOfNat 1), qMul d (qOfNat 2)],
        some .timeout⟩ := by
  have htimeout : classify AttemptOutcome.timeout = Except.error .timeout := rfl
  rw [fetch_page]
  simp only [fetchGo, htimeout, hok, List.isEmpty_cons, List.isEmpty_nil,
    Bool.false_eq_true, if_false]

/-- Containment follows from prefix-hood: the scan of `strContains`
succeeds at the very first position. -/
theorem strContains_of_isPrefixOf (s n : Str) (h : n.isPrefixOf s = true) :
    strContains s n = true := by
  cases s with
  | nil =>
    cases n with
    | nil => rfl
    | cons c tl => simp [List.isPrefixOf] at h
  | cons c tl =>
    rw [strContains, h, Bool.true_or]

/-- C5 (confirmed): in every run the sleep list is exactly
`retryDelay * k` for `k = 1, …, attemptsUsed - 1` — one linear-backoff
sleep after every failed attempt except the last attempt of the run —
and the scenario `[timeout, timeout, 200-OK with a 2000-character HTML
body]` returns the body after sleeping `retryDelay * 1` then
`retryDelay * 2`. -/
theorem fetch_backoff_linear (d : ℚ) :
    (∀ outcomes : List AttemptOutcome,
      (fetch_page d outcomes).sleeps =
        (List.range' 1 ((fetch_page d outcomes).attemptsUsed - 1)).map
          (fun k : ℕ => d * (k : ℚ))) ∧
    ((fetch_page d [.timeout, .timeout, .response 200 sampleHtml]).html =
        some sampleHtml ∧
      (fetch_page d [.timeout, .timeout, .response 200 sampleHtml]).sleeps =
        [d * 1, d * 2]) := by
  have hmap : (fun k => qMul d (qOfNat k)) = (fun k : ℕ => d * (k : ℚ)) := by
    funext k
    rw [qMul_eq, qOfNat_eq]
  have hcons : sampleHtml = '<' :: ("html>".toList ++ List.replicate 1994 'a') := rfl
  have hlen : sampleHtml.length = 2000 := by
    rw [sampleHtml, List.length_append, List.length_replicate]
    rfl
  have hpref : "<html".toList.isPrefixOf (sampleHtml.take 500) = true := by
    rw [sampleHtml, List.take_append_eq_append_take, List.take_replicate]
    decide
  have hcont : strContains (sampleHtml.take 500) "<html".toList = true :=
    strContains_of_isPrefixOf _ _ hpref
  have h1 : (sampleHtml.isEmpty || decide (sampleHtml.length < 1000)) = false := by
    rw [hlen, hcons]
    decide
  have h2 : (!strContains (sampleHtml.take 500) "DOCTYPE".toList &&
      !strContains (sampleHtml.take 500) "<html".toList) = false := by
    rw [hcont]
    simp
  have hok : classify (.response 200 sampleHtml) = Except.ok sampleHtml := by
    simp only [classify]
    rw [if_neg (by decide), if_neg (by decide), if_neg (by decide),
      if_neg (by decide),
      if_neg (by rw [h1]; exact Bool.false_ne_true),
      if_neg (by rw [h2]; exact Bool.false_ne_true)]
  have hrun : fetch_page d [.timeout, .timeout, .response 200 sampleHtml] =
      ⟨some sampleHtml, 3, [qMul d (qOfNat 1), qMul d (qOfNat 2)],
        some .timeout⟩ := fetch_scenario_run d sampleHtml hok
  refine ⟨fun outcomes => ?_, ?_, ?_⟩
  · rw [fetch_page, fetchGo_sleeps d outcomes 1 none, hmap]
  · rw [hrun]
  · rw [hrun, show (⟨some sampleHtml, 3, [qMul d (qOfNat 1), qMul d (qOfNat 2)],
        some .timeout⟩ : FetchResult).sleeps =
        [qMul d (qOfNat 1), qMul d (qOfNat 2)] from rfl,
      qMul_eq, qMul_eq, qOfNat_eq, qOfNat_eq]
    norm_num

/-- C6 (confirmed): a selector matching at most 3 elements is skipped —
the extraction result (records and parse trace alike) is the one
obtained without that selector, so none of its elements is parsed — and
every element ever handed to element-to-record parsing belongs to some
selector of the list, in its fixed order, matching strictly more than 3
elements. -/
theorem selector_threshold (soup : String → List Element) (url b : Str)
    (n : ℕ) :
    (∀ sel rest, (soup sel).length ≤ 3 →
      extractWithBS soup url b n (sel :: rest) =
        extractWithBS soup url b n rest) ∧
    (∀ sels e, e ∈ (extractWithBS soup url b n sels).2 →
      ∃ sel ∈ sels, 3 < (soup sel).length ∧ e ∈ soup sel) := by
  constructor
  · intro sel rest h
    rw [extractWithBS, if_neg (Nat.not_lt.mpr h)]
  · intro sels
    induction sels with
    | nil =>
      intro e h
      simp [extractWithBS] at h
    | cons sel rest ih =>
      intro e h
      rw [extractWithBS] at h
      by_cases h3 : 3 < (soup sel).length
      · rw [if_pos h3] at h
        simp only [] at h
        split at h
        · simp only [] at h
          rcases List.mem_append.mp h with hel | htr
          · exact ⟨sel, List.mem_cons_self _ _, h3, hel⟩
          · obtain ⟨sel2, hs2, hlen2, hmem2⟩ := ih e htr
            exact ⟨sel2, List.mem_cons_of_mem _ hs2, hlen2, hmem2⟩
        · exact ⟨sel, List.mem_cons_self _ _, h3, h⟩
      · rw [if_neg h3] at h
        obtain ⟨sel2, hs2, hlen2, hmem2⟩ := ih e h
        exact ⟨sel2, List.mem_cons_of_mem _ hs2, hlen2, hmem2⟩

/-- Witness for `selector_threshold`: in `exampleSoup` the first
selector `h3` matches exactly three elements, so extraction over the
full selector list equals extraction over the remaining four
selectors. -/
theorem selector_threshold_witness :
    extractWithBS exampleSoup [] [] 1 SELECTORS =
      extractWithBS exampleSoup [] [] 1
        ["[class*=\x22product\x22]", "[class*=\x22item\x22]",
         "a[href*=\x22/product/\x22]", "div.product"] :=
  (selector_threshold exampleSoup [] [] 1).1 "h3"
    ["[class*=\x22product\x22]", "[class*=\x22item\x22]",
     "a[href*=\x22/product/\x22]", "div.product"] (by decide)

/-!
Helper lemmas for the title-normalizer idempotence claim.
-/

theorem mem_of_mem_dropWhile (p : Char → Bool) :
    ∀ (l : Str) (c : Char), c ∈ l.dropWhile p → c ∈ l := by
  intro l
  induction l with
  | nil =>
    intro c h
    simp at h
  | cons a tl ih =>
    intro c h
    rw [List.dropWhile_cons] at h
    split at h
    · exact List.mem_cons_of_mem _ (ih c h)
    · exact h

theorem length_dropWhile_le (p : Char → Bool) :
    ∀ l : Str, (l.dropWhile p).length ≤ l.length := by
  intro l
  induction l with
  | nil => exact Nat.le_refl 0
  | cons a tl ih =>
    rw [List.dropWhile_cons]
    split
    · exact Nat.le_trans ih (Nat.le_succ _)
    · exact Nat.le_refl _

theorem head_dropWhile_not (p : Char → Bool) :
    ∀ (l : Str) (c : Char), (l.dropWhile p).head? = some c → p c = false := by
  intro l
  induction l with
  | nil =>
    intro c h
    simp at h
  | cons a tl ih =>
    intro c h
    rw [List.dropWhile_cons] at h
    split at h
    · exact ih c h
    · next hpa =>
      rw [List.head?_cons, Option.some.injEq] at h
      subst h
      simpa using hpa

theorem dropWhile_id_of_head (p : Char → Bool) (l : Str)
    (h : ∀ c, l.head? = some c → p c = false) : l.dropWhile p = l := by
  cases l with
  | nil => rfl
  | cons a tl =>
    rw [List.dropWhile_cons, if_neg]
    simp [h a rfl]

theorem getLast_dropWhile (p : Char → Bool) :
    ∀ l : Str, l.dropWhile p ≠ [] →
      (l.dropWhile p).getLast? = l.getLast? := by
  intro l
  induction l with
  | nil => exact fun h => absurd rfl h
  | cons a tl ih =>
    intro h
    rw [List.dropWhile_cons] at h ⊢
    by_cases hpa : p a = true
    · rw [if_pos hpa] at h ⊢
      have htl : tl ≠ [] := by
        intro hh
        subst hh
        simp at h
      rw [ih h]
      cases tl with
      | nil => exact absurd rfl htl
      | cons b tb => rw [List.getLast?_cons_cons]
    · rw [if_neg hpa]

theorem pyStrip_mem (s : Str) (c : Char) (h : c ∈ pyStrip s) : c ∈ s := by
  rw [pyStrip, List.mem_reverse] at h
  have h2 := mem_of_mem_dropWhile _ _ _ h
  rw [List.mem_reverse] at h2
  exact mem_of_mem_dropWhile _ _ _ h2

theorem pyStrip_length_le (s : Str) : (pyStrip s).length ≤ s.length := by
  rw [pyStrip, List.length_reverse]
  calc ((s.dropWhile isPySpace).reverse.dropWhile isPySpace).length
      ≤ (s.dropWhile isPySpace).reverse.length := length_dropWhile_le _ _
    _ = (s.dropWhile isPySpace).length := List.length_reverse _
    _ ≤ s.length := length_dropWhile_le _ _

theorem pyStrip_head_not (s : Str) (c : Char)
    (h : (pyStrip s).head? = some c) : isPySpace c = false := by
  rw [pyStrip, List.head?_reverse] at h
  have hne : ((s.dropWhile isPySpace).reverse.dropWhile isPySpace) ≠ [] := by
    intro hh
    rw [hh] at h
    simp at h
  rw [getLast_dropWhile _ _ hne, List.getLast?_reverse] at h
  exact head_dropWhile_not _ _ _ h

theorem pyStrip_last_not (s : Str) (c : Char)
    (h : (pyStrip s).getLast? = some c) : isPySpace c = false := by
  rw [pyStrip, List.getLast?_reverse] at h
  exact head_dropWhile_not _ _ _ h

theorem pyStrip_id (s : Str)
    (hh : ∀ c, s.head? = some c → isPySpace c = false)
    (hl : ∀ c, s.getLast? = some c → isPySpace c = false) : pyStrip s = s := by
  rw [pyStrip, dropWhile_id_of_head _ _ hh,
    dropWhile_id_of_head _ _ (fun c hc => hl c (by rwa [List.head?_reverse] at hc))]
  exact List.reverse_reverse s

theorem squeeze_mem_space :
    ∀ (s : Str), ∀ c ∈ squeeze s, isPySpace c = true → c = ' ' := by
  intro s
  induction s with
  | nil =>
    intro c h
    simp [squeeze] at h
  | cons a tl ih =>
    cases tl with
    | nil =>
      intro c h hsp
      replace h : c ∈ (if isPySpace a then [' '] else [a]) := h
      split at h
      · simpa using List.mem_singleton.mp h
      · next hpa =>
        rw [List.mem_singleton.mp h] at hsp
        simp [hsp] at hpa
    | cons b tb =>
      intro c h hsp
      replace h : c ∈ (if isPySpace a then
          (if isPySpace b then squeeze (b :: tb) else ' ' :: squeeze (b :: tb))
          else a :: squeeze (b :: tb)) := h
      split at h
      · split at h
        · exact ih c h hsp
        · rcases List.mem_cons.mp h with rfl | h2
          · rfl
          · exact ih c h2 hsp
      · next hpa =>
        rcases List.mem_cons.mp h with rfl | h2
        · simp [hsp] at hpa
        · exact ih c h2 hsp

theorem squeeze_id :
    ∀ s : Str, (∀ c ∈ s, isPySpace c = true → c = ' ') →
      noDoubleWS s = true → squeeze s = s := by
  intro s
  induction s with
  | nil => exact fun _ _ => rfl
  | cons a tl ih =>
    cases tl with
    | nil =>
      intro hsp _
      show (if isPySpace a then [' '] else [a]) = [a]
      by_cases hpa : isPySpace a = true
      · rw [if_pos hpa, hsp a (List.mem_cons_self _ _) hpa]
      · rw [if_neg (by simp [hpa])]
    | cons b tb =>
      intro hsp hnd
      replace hnd : (!(isPySpace a && isPySpace b) && noDoubleWS (b :: tb)) =
        true := hnd
      simp only [Bool.and_eq_true, Bool.not_eq_true', Bool.and_eq_false_iff]
        at hnd
      obtain ⟨hnab, hnd2⟩ := hnd
      have hrec : squeeze (b :: tb) = b :: tb :=
        ih (fun c hc hc2 => hsp c (List.mem_cons_of_mem _ hc) hc2) hnd2
      show (if isPySpace a then
          (if isPySpace b then squeeze (b :: tb) else ' ' :: squeeze (b :: tb))
          else a :: squeeze (b :: tb)) = a :: b :: tb
      by_cases hpa : isPySpace a = true
      · have hpb : isPySpace b = false := by
          rcases hnab with h | h
          · rw [hpa] at h
            simp at h
          · exact h
        rw [if_pos hpa, if_neg (by simp [hpb]), hrec,
          hsp a (List.mem_cons_self _ _) hpa]
      · rw [if_neg (by simp [hpa]), hrec]

theorem subPriceGo_mem :
    ∀ (fuel : ℕ) (s : Str) (c : Char), c ∈ subPriceGo fuel s → c ∈ s := by
  intro fuel
  induction fuel with
  | zero =>
    intro s c h
    cases s with
    | nil => simp [subPriceGo] at h
    | cons a tl => exact h
  | succ fuel ih =>
    intro s c h
    cases s with
    | nil => simp [subPriceGo] at h
    | cons a tl =>
      replace h : c ∈ (match matchPriceStripAt (a :: tl) with
        | some n => subPriceGo fuel (tl.drop (n - 1))
        | none => a :: subPriceGo fuel tl) := h
      rcases hm : matchPriceStripAt (a :: tl) with _ | n <;> rw [hm] at h
      · rcases List.mem_cons.mp h with rfl | h2
        · exact List.mem_cons_self _ _
        · exact List.mem_cons_of_mem _ (ih tl c h2)
      · exact List.mem_cons_of_mem _ (List.mem_of_mem_drop (ih _ c h))

theorem subPriceGo_no_match :
    ∀ (fuel : ℕ) (s : Str), hasPriceMatch s = false → s.length ≤ fuel →
      subPriceGo fuel s = s := by
  intro fuel
  induction fuel with
  | zero =>
    intro s _ hlen
    have hnil : s = [] := List.eq_nil_of_length_eq_zero (Nat.le_zero.mp hlen)
    subst hnil
    rfl
  | succ fuel ih =>
    intro s hnp hlen
    cases s with
    | nil => rfl
    | cons a tl =>
      replace hnp : ((matchPriceStripAt (a :: tl)).isSome ||
        hasPriceMatch tl) = false := hnp
      simp only [Bool.or_eq_false_iff] at hnp
      obtain ⟨h1, h2⟩ := hnp
      have hm : matchPriceStripAt (a :: tl) = none := by
        rcases hmm : matchPriceStripAt (a :: tl) with _ | n
        · rfl
        · rw [hmm] at h1
          simp at h1
      show (match matchPriceStripAt (a :: tl) with
        | some n => subPriceGo fuel (tl.drop (n - 1))
        | none => a :: subPriceGo fuel tl) = a :: tl
      rw [hm, ih tl h2 (by simpa using Nat.succ_le_succ_iff.mp hlen)]

theorem subPrice_no_match (s : Str) (h : hasPriceMatch s = false) :
    subPrice s = s :=
  subPriceGo_no_match s.length s h (Nat.le_refl _)

/-- C7 (corrected, counterexample): the title "Молоко 45.50 грн пакет"
normalizes to "Молоко  пакет" — excising the currency amount leaves a
double space — and that output, which contains no currency substring,
is not a fixed point of the normalizer (renormalizing collapses the
double space). -/
theorem extract_title_idempotent_cex :
    extractTitle "Молоко 45.50 грн пакет".toList =
      some "Молоко  пакет".toList ∧
    hasPriceMatch "Молоко  пакет".toList = false ∧
    extractTitle "Молоко  пакет".toList ≠ some "Молоко  пакет".toList := by
  refine ⟨by decide, by decide, by decide⟩

/-- C7 (amended): the title normalizer is idempotent on every output
that contains no currency amount+marker substring and no two adjacent
whitespace characters (outputs keep at most single spaces except where
a currency match was excised between two spaces). -/
theorem extract_title_idempotent (x t : Str)
    (hout : extractTitle x = some t)
    (hnp : hasPriceMatch t = false)
    (hnd : noDoubleWS t = true) :
    extractTitle t = some t := by
  rw [extractTitle] at hout
  split at hout
  · simp at hout
  · next hguard =>
    rw [Option.some.injEq] at hout
    subst hout
    set T := pyStrip ((pyStrip (subPrice (cleanText x))).take 200) with hT
    have hmem : ∀ c ∈ T, isPySpace c = true → c = ' ' := by
      intro c hc hsp
      have h1 := pyStrip_mem _ _ hc
      have h2 := pyStrip_mem _ _ (List.mem_of_mem_take h1)
      have h3 : c ∈ cleanText x := by
        rw [subPrice] at h2
        exact subPriceGo_mem _ _ _ h2
      rw [cleanText] at h3
      exact squeeze_mem_space _ _ (pyStrip_mem _ _ h3) hsp
    have hh : ∀ c, T.head? = some c → isPySpace c = false :=
      fun c hc => pyStrip_head_not _ _ hc
    have hl : ∀ c, T.getLast? = some c → isPySpace c = false :=
      fun c hc => pyStrip_last_not _ _ hc
    have hlen : T.length ≤ 200 := by
      refine le_trans (pyStrip_length_le _) ?_
      rw [List.length_take]
      exact min_le_left _ _
    have hsq : squeeze T = T := squeeze_id T hmem hnd
    have hst : pyStrip T = T := pyStrip_id T hh hl
    have hsp : subPrice T = T := subPrice_no_match T hnp
    have htk : T.take 200 = T := List.take_of_length_le hlen
    have hclean : cleanText T = T := by
      rw [cleanText, hsq, hst]
    rw [extractTitle, hclean, hsp, hst, htk, hst]
    rw [if_neg hguard]

/-- Witness for `extract_title_idempotent`: "Молоко 45.50 грн"
normalizes to "Молоко", which renormalizes to itself. -/
theorem extract_title_idempotent_witness :
    extractTitle "Молоко".toList = some "Молоко".toList :=
  extract_title_idempotent "Молоко 45.50 грн".toList "Молоко".toList
    (by decide) (by decide) (by decide)
